import Mathlib

/-!
Verification of the form-management library (two revisions: `src/index.js`,
exporting `manageForm`/`loadAllForms`, and the `FormMan` module, exporting
`validateEmail`, `initForm`, `initAllForms`, `activate`, `disable`).

The JavaScript is shallowly embedded: the per-form submit pipelines become
pure functions over a list of input elements, the registry becomes an
association list keyed by the name/id strings, event-listener installation
becomes an explicit listener list, and the fetch transport becomes a record
describing the request the code would issue.
-/

namespace Forms

/-- Model of the JavaScript regex character class `\s` (whitespace). Both the
source regex and the specification use the same whitespace notion, so the
equivalence theorems below do not depend on its exact extension. -/
def jsSpace (c : Char) : Bool :=
  c = ' ' || c = '\t' || c = '\n' || c = '\r' || c = '\x0b' || c = '\x0c' || c = ' '

namespace FormMan

/-! ### validateEmail

Source: `return /^[^@.\s][^@\s]*@[^.@\s]+\.[^@\s]{2,}$/.test(string);`.

Every character class in the pattern excludes the literal that terminates it
(`[^@\s]*` is followed by `@`, `[^.@\s]+` by `.`), so the backtracking regex
match is deterministic and is translated as a sequential matcher: each stage
consumes characters of its class until it reaches the terminating literal. -/

/-- Regex tail `[^@\s]{2,}$`: at least two characters, none `@` or whitespace. -/
def tldEnd (l : List Char) : Bool :=
  decide (2 ≤ l.length) && l.all (fun c => !(c == '@' || jsSpace c))

/-- Regex tail `[^.@\s]*\.[^@\s]{2,}$` (rest of the domain, then dot, then tld). -/
def domainRest : List Char → Bool
  | [] => false
  | c :: cs =>
    if c == '.' then tldEnd cs
    else if c == '@' || jsSpace c then false
    else domainRest cs

/-- Regex tail `[^.@\s]+\.[^@\s]{2,}$` (non-empty domain, then dot, then tld). -/
def domainStart : List Char → Bool
  | [] => false
  | c :: cs =>
    if c == '.' || c == '@' || jsSpace c then false
    else domainRest cs

/-- Regex tail `[^@\s]*@[^.@\s]+\.[^@\s]{2,}$` (rest of the local part onward). -/
def localRest : List Char → Bool
  | [] => false
  | c :: cs =>
    if c == '@' then domainStart cs
    else if jsSpace c then false
    else localRest cs

/-- The anchored regex `/^[^@.\s][^@\s]*@[^.@\s]+\.[^@\s]{2,}$/` on a
character list. -/
def emailChars : List Char → Bool
  | [] => false
  | c :: cs =>
    if c == '@' || c == '.' || jsSpace c then false
    else localRest cs

/-- `validateEmail` from the source: tests the anchored regex
`/^[^@.\s][^@\s]*@[^.@\s]+\.[^@\s]{2,}$/` against the string. -/
def validateEmail (s : String) : Bool :=
  emailChars s.toList

end FormMan

/-! ### The specification's description of validateEmail, stated in its own
words, for comparison with the source regex. -/

/-- Spec: the local part is non-empty, does not start with `@`, `.`, or
whitespace, and contains no `@` or whitespace. -/
def specLocal (lo : List Char) : Prop :=
  lo ≠ [] ∧
  (∀ c, lo.head? = some c → ¬(c = '@' ∨ c = '.' ∨ jsSpace c = true)) ∧
  (∀ c ∈ lo, ¬(c = '@' ∨ jsSpace c = true))

/-- Spec: the domain is non-empty and contains no `.`, `@`, or whitespace. -/
def specDomain (d : List Char) : Prop :=
  d ≠ [] ∧ ∀ c ∈ d, ¬(c = '.' ∨ c = '@' ∨ jsSpace c = true)

/-- Spec: the tld is at least 2 characters and contains no `@` or whitespace. -/
def specTld (t : List Char) : Prop :=
  2 ≤ t.length ∧ ∀ c ∈ t, ¬(c = '@' ∨ jsSpace c = true)

/-- Spec: strings of the shape `local@domain.tld` with the stated constraints. -/
def emailShape (s : String) : Prop :=
  ∃ lo d t : List Char,
    s.toList = lo ++ '@' :: (d ++ '.' :: t) ∧ specLocal lo ∧ specDomain d ∧ specTld t

/-! ## Shared DOM model -/

/-- An `<input>` element: its name, type and value attributes. -/
structure Input where
  name : String
  type : String
  value : String
deriving DecidableEq

/-- Per-form validator registry: field name to the registered validator, if
any. In `src/index.js` entries are removed with `delete`; in the `FormMan`
revision removal stores `null`; in both cases the submit loop's truthiness
test fails, so both are `none` here. -/
abbrev Validators := String → Option (Input → Bool)

/-- `inputs[input.name] && !inputs[input.name](input)`: a validator is
registered for the input's name and returns false on the input. -/
def failsValidation (v : Validators) (i : Input) : Bool :=
  match v i.name with
  | some f => !(f i)
  | none => false

/-- The input is processed by the loop (its type is not `submit`) and its
registered validator rejects it. -/
def rejected (v : Validators) (i : Input) : Bool :=
  i.type != "submit" && failsValidation v i

/-- The (name, value) pair the pipeline appends for a non-submit input. -/
def nonSubmitPair (i : Input) : Option (String × String) :=
  if i.type == "submit" then none else some (i.name, i.value)

/-- URL-encoded pairs of all non-submit inputs, in DOM order. -/
def pairsOf (l : List Input) : List (String × String) :=
  l.filterMap nonSubmitPair

/-- A `<form>` element: identity attributes, declared action and method, and
its input elements in DOM order. -/
structure FormElement where
  name : String
  id : String
  action : String
  method : String
  inputs : List Input
deriving DecidableEq

/-- State of a submit-pipeline loop: the accumulated `URLSearchParams`, the
error flag, and the input focused by the first validation failure. -/
structure LoopState where
  params : List (String × String)
  error : Bool
  focused : Option Input
deriving DecidableEq

/-- `addEventListener`: the DOM ignores a listener that is already attached. -/
def addListener {α : Type} [DecidableEq α] (ls : List α) (h : α) : List α :=
  if h ∈ ls then ls else ls ++ [h]

/-- A form element as the registries see it: the element's identity `eid`
(object identity, not used as a key) and its name and id attributes. -/
structure FormRef where
  eid : Nat
  name : String
  id : String
deriving DecidableEq

/-- Lookup in a string-keyed JavaScript object (`obj[key]`). -/
def lookupStr (m : List (String × Nat)) (k : String) : Option Nat :=
  (m.find? (fun p => p.1 == k)).map (fun p => p.2)

namespace IndexJs

/-- One iteration of the `onSubmit` input loop (src/index.js lines 122-136).
The source invokes every registered validator even after an error has been
recorded, for UX side effects; validators are pure here, so only the branch
outcome is observable. -/
def submitStep (v : Validators) (st : LoopState) (i : Input) : LoopState :=
  if i.type == "submit" then st
  else if failsValidation v i && !st.error then
    { st with error := true, focused := some i }
  else if !st.error then
    { st with params := st.params ++ [(i.name, i.value)] }
  else st

/-- The whole input loop of `onSubmit`. -/
def runLoop (v : Validators) (l : List Input) : LoopState :=
  l.foldl (submitStep v) ⟨[], false, none⟩

/-! ### Fetch and the submit handler (src/index.js lines 110-145) -/

/-- User-overridden fetch parameters (`fetchInit`); `none` means the field is
absent from the override object. -/
structure RequestInit where
  method : Option String := none
  body : Option (List (String × String)) := none
deriving DecidableEq

/-- The request `fetch(formElement.action, Object.assign({body, method},
fetchInit))` would issue: `Object.assign` lets a present override field win. -/
structure FetchCall where
  url : String
  method : String
  body : List (String × String)
deriving DecidableEq

/-- Observable outcome of one run of the `onSubmit` handler. The handler
always calls `event.preventDefault()` first; on success it calls
`fetchCallback(fetch(...))`, handing the fetch promise to the response
callback unconditionally — it never inspects the response and contains no
navigation, hence `navigatedTo := none` in both branches. -/
structure SubmitResult where
  defaultPrevented : Bool
  payload : List (String × String)
  focused : Option Input
  fetched : Option FetchCall
  callbackInvoked : Bool
  navigatedTo : Option String
deriving DecidableEq

/-- The `onSubmit` handler: validate-and-collect loop, then conditional
dispatch. -/
def onSubmit (form : FormElement) (v : Validators) (fetchInit : RequestInit) :
    SubmitResult :=
  let st := runLoop v form.inputs
  if st.error then
    { defaultPrevented := true, payload := st.params, focused := st.focused,
      fetched := none, callbackInvoked := false, navigatedTo := none }
  else
    { defaultPrevented := true, payload := st.params, focused := st.focused,
      fetched := some { url := form.action,
                        method := fetchInit.method.getD form.method,
                        body := fetchInit.body.getD st.params },
      callbackInvoked := true, navigatedTo := none }

/-! ### Enable/disable of submit handling (src/index.js lines 147-176)

A `FormManagementAPI` instance has a single `onSubmit` closure; the listener
list of its form can therefore only ever hold that one value, written `()`. -/

structure SubmitHandling where
  isHandlingSubmit : Bool
  listeners : List Unit
deriving DecidableEq

/-- State right after `new FormManagementAPI(formElement)`:
`addEventListener('submit', onSubmit)` has run and `isHandlingSubmit = true`. -/
def newHandling : SubmitHandling :=
  { isHandlingSubmit := true, listeners := addListener [] () }

def enableSubmitHandling (s : SubmitHandling) : SubmitHandling :=
  if !s.isHandlingSubmit then
    { isHandlingSubmit := true, listeners := addListener s.listeners () }
  else s

def disableSubmitHandling (s : SubmitHandling) : SubmitHandling :=
  if s.isHandlingSubmit then
    { isHandlingSubmit := false, listeners := s.listeners.erase () }
  else s

/-- Handler states reachable through the public API. -/
inductive Reach : SubmitHandling → Prop where
  | fromNew : Reach newHandling
  | stepEnable : ∀ {s}, Reach s → Reach (enableSubmitHandling s)
  | stepDisable : ∀ {s}, Reach s → Reach (disableSubmitHandling s)

/-- A submit event runs each attached listener, i.e. `onSubmit` once per
attachment. -/
def dispatchResults (s : SubmitHandling) (form : FormElement) (v : Validators)
    (fetchInit : RequestInit) : List SubmitResult :=
  s.listeners.map (fun _ => onSubmit form v fetchInit)

/-! ### Registry (src/index.js lines 5-55)

`formAPI.byName` / `formAPI.byID` are JavaScript objects keyed by the form's
name/id strings; elements themselves are identified by `eid` so that two
distinct elements sharing a key are distinguishable. Property assignment
prepends (later lookups see the newest binding). Constructing a
`FormManagementAPI` attaches its `onSubmit` closure (identified with the API
id) to the element. -/

structure RegistryState where
  byName : List (String × Nat)
  byID : List (String × Nat)
  nextApi : Nat
  wraps : List (Nat × Nat)
  listeners : List (Nat × Nat)
deriving DecidableEq

/-- The empty `formAPI` object at module load. -/
def emptyRegistry : RegistryState :=
  { byName := [], byID := [], nextApi := 0, wraps := [], listeners := [] }

/-- `manageForm(form)` for a form reference:
`formAPI.byName[form.name] ?? formAPI.byID[form.id] ?? (construct and index)`.
Returns the API id and the updated registry. `wraps` records which element the
new instance wraps; `listeners` records the `addEventListener` performed by
the constructor. -/
def manageForm (s : RegistryState) (f : FormRef) : Nat × RegistryState :=
  match lookupStr s.byName f.name with
  | some a => (a, s)
  | none =>
    match lookupStr s.byID f.id with
    | some a => (a, s)
    | none =>
      let a := s.nextApi
      (a, { byName := (f.name, a) :: s.byName,
            byID := (f.id, a) :: s.byID,
            nextApi := a + 1,
            wraps := (a, f.eid) :: s.wraps,
            listeners := addListener s.listeners (f.eid, a) })

/-- `loadAllForms()`: `manageForm` over every document form. -/
def loadAllForms (doc : List FormRef) (s : RegistryState) : RegistryState :=
  doc.foldl (fun st f => (manageForm st f).2) s

/-- Listeners attached to a given element. -/
def listenersOn (s : RegistryState) (eid : Nat) : List Nat :=
  (s.listeners.filter (fun p => p.1 == eid)).map (fun p => p.2)

/-- A form counts as present once either of its keys resolves. -/
def managedKey (s : RegistryState) (f : FormRef) : Prop :=
  (lookupStr s.byName f.name).isSome = true ∨ (lookupStr s.byID f.id).isSome = true

end IndexJs

namespace FormMan

/-! ### The activate-handler submit pipeline (part_000 lines 70-95) -/

/-- One iteration of the activate-handler loop (part_000 lines 74-80). After
a failure has been recorded, the `else` branch still appends every later
non-submit input's pair; only the dispatch below is skipped. -/
def loopStep (v : Validators) (st : LoopState) (i : Input) : LoopState :=
  if i.type == "submit" then st
  else if !st.error && failsValidation v i then
    { st with error := true, focused := some i }
  else { st with params := st.params ++ [(i.name, i.value)] }

/-- The request part_000's handler issues on success (lines 82-86): hardcoded
`method: "POST"`, `redirect: "follow"` and the `X-Doji-Fetch` marker header. -/
structure FetchRequest where
  url : String
  method : String
  redirect : String
  headers : List (String × String)
  body : List (String × String)
deriving DecidableEq

/-- Observable outcome of one run of a part_000 submit handler. -/
structure SubmitOutcome where
  defaultPrevented : Bool
  payload : List (String × String)
  focused : Option Input
  fetched : Option FetchRequest
deriving DecidableEq

/-- The handler installed by `activate()` (part_000 lines 70-95):
preventDefault, the input loop, then `fetch` unless a validator failed. -/
def activateHandler (form : FormElement) (v : Validators) : SubmitOutcome :=
  let st := form.inputs.foldl (loopStep v) ⟨[], false, none⟩
  if st.error then
    { defaultPrevented := true, payload := st.params, focused := st.focused,
      fetched := none }
  else
    { defaultPrevented := true, payload := st.params, focused := st.focused,
      fetched := some { url := form.action, method := "POST",
                        redirect := "follow",
                        headers := [("X-Doji-Fetch", "true")],
                        body := st.params } }

/-! ### Response handling (part_000 lines 87-94) -/

/-- A fetch `Response` as the continuation chain reads it: the `redirected`
flag, the final `url`, and the body text `r.text()` resolves to. -/
structure Response where
  redirected : Bool
  url : String
  text : String
deriving DecidableEq

/-- First `.then`: on a redirected response assign `window.location.href =
r.url` and return a dead thenable (an object whose `then` does nothing),
which suppresses the rest of the chain; otherwise pass the response on. -/
def redirectStep (r : Response) : Option String × Option Response :=
  if r.redirected then (some r.url, none) else (none, some r)

/-- The whole continuation chain
`.then(redirect check).then(r => r.text()).then(d => console.log(d))`:
returns the navigation target and the resolved text handed to the final
logging sink, if the chain got that far. -/
def responseChain (r : Response) : Option String × Option String :=
  match redirectStep r with
  | (nav, none) => (nav, none)
  | (nav, some resp) => (nav, some resp.text)

/-! ### Handler installation (part_000 lines 37-103) -/

inductive HandlerKind where
  | active
  | passive
deriving DecidableEq

/-- A submit-handler closure: a creation counter (closures created by
distinct `activate`/`disable` calls are distinct objects) and its behavior. -/
structure SubmitHandler where
  gen : Nat
  kind : HandlerKind
deriving DecidableEq

/-- Handler state of one `Form` instance: `_submitFn`, the element's submit
listener list, and the closure-creation counter. -/
structure FormState where
  submitFn : Option SubmitHandler
  listeners : List SubmitHandler
  gen : Nat
deriving DecidableEq

/-- `setSubmitFunction(fn)` (lines 59-64): remove the previously installed
handler, if any, then attach the new one and remember it. -/
def setSubmitFunction (s : FormState) (k : HandlerKind) : FormState :=
  let h : SubmitHandler := ⟨s.gen, k⟩
  let ls := match s.submitFn with
    | some old => s.listeners.erase old
    | none => s.listeners
  { submitFn := some h, listeners := addListener ls h, gen := s.gen + 1 }

/-- `activate()`: install a fresh full validation-and-dispatch handler. -/
def activate (s : FormState) : FormState := setSubmitFunction s .active

/-- `disable()`: install a handler that only calls `e.preventDefault()`. -/
def disable (s : FormState) : FormState := setSubmitFunction s .passive

/-- State right after `new Form(form)`: the constructor calls `activate`. -/
def newForm : FormState := activate { submitFn := none, listeners := [], gen := 0 }

/-- Handler states reachable through the public API. -/
inductive FMReach : FormState → Prop where
  | fromNew : FMReach newForm
  | stepActivate : ∀ {s}, FMReach s → FMReach (activate s)
  | stepDisable : ∀ {s}, FMReach s → FMReach (disable s)

/-- Running one attached handler on a submit event: a passive handler only
calls `e.preventDefault()`. -/
def runHandler (h : SubmitHandler) (form : FormElement) (v : Validators) :
    SubmitOutcome :=
  match h.kind with
  | .active => activateHandler form v
  | .passive =>
    { defaultPrevented := true, payload := [], focused := none, fetched := none }

/-- A submit event runs every attached listener in order. -/
def dispatchOutcomes (s : FormState) (form : FormElement) (v : Validators) :
    List SubmitOutcome :=
  s.listeners.map (fun h => runHandler h form v)

/-! ### Registry (part_000 lines 32, 129-140) -/

/-- The module-level `forms` object: name attribute → `Form` instance id;
`instances` records which element each instance wraps. -/
structure Registry where
  forms : List (String × Nat)
  instances : List (Nat × Nat)
  nextForm : Nat
deriving DecidableEq

/-- The empty `forms` object at module load. -/
def emptyForms : Registry := { forms := [], instances := [], nextForm := 0 }

/-- `initForm(form)`: `if (!forms[form.name]) new Form(form)`. The `Form`
constructor indexes the instance under the element's name only. -/
def initForm (r : Registry) (f : FormRef) : Registry :=
  match lookupStr r.forms f.name with
  | some _ => r
  | none =>
      { forms := (f.name, r.nextForm) :: r.forms,
        instances := (r.nextForm, f.eid) :: r.instances,
        nextForm := r.nextForm + 1 }

/-- `initAllForms()`: `initForm` over every document form. -/
def initAllForms (doc : List FormRef) (r : Registry) : Registry :=
  doc.foldl initForm r

end FormMan

/-! ## Lemmas and theorems -/

/-! ### Equivalence of the regex matcher with the spec's shape -/

lemma domainRest_cons (c : Char) (cs : List Char) :
    FormMan.domainRest (c :: cs) =
      if c == '.' then FormMan.tldEnd cs
      else if c == '@' || jsSpace c then false
      else FormMan.domainRest cs := rfl

lemma domainStart_cons (c : Char) (cs : List Char) :
    FormMan.domainStart (c :: cs) =
      if c == '.' || c == '@' || jsSpace c then false
      else FormMan.domainRest cs := rfl

lemma localRest_cons (c : Char) (cs : List Char) :
    FormMan.localRest (c :: cs) =
      if c == '@' then FormMan.domainStart cs
      else if jsSpace c then false
      else FormMan.localRest cs := rfl

lemma emailChars_cons (c : Char) (cs : List Char) :
    FormMan.emailChars (c :: cs) =
      if c == '@' || c == '.' || jsSpace c then false
      else FormMan.localRest cs := rfl

lemma tldEnd_iff (t : List Char) : FormMan.tldEnd t = true ↔ specTld t := by
  unfold FormMan.tldEnd specTld
  rw [Bool.and_eq_true, decide_eq_true_iff, List.all_eq_true]
  apply and_congr_right
  intro _
  constructor
  · intro h c hc
    have := h c hc
    simp only [Bool.not_eq_true', Bool.or_eq_false_iff, beq_eq_false_iff_ne] at this
    rintro (rfl | hs)
    · exact this.1 rfl
    · rw [this.2] at hs
      cases hs
  · intro h c hc
    have := h c hc
    push_neg at this
    simp [this.1, this.2]

lemma domainRest_iff (cs : List Char) :
    FormMan.domainRest cs = true ↔
      ∃ d t, cs = d ++ '.' :: t ∧
        (∀ c ∈ d, ¬(c = '.' ∨ c = '@' ∨ jsSpace c = true)) ∧ FormMan.tldEnd t = true := by
  induction cs with
  | nil =>
    simp only [FormMan.domainRest]
    constructor
    · intro h; cases h
    · rintro ⟨d, t, heq, -, -⟩
      exact absurd heq.symm (List.append_ne_nil_of_right_ne_nil d (List.cons_ne_nil _ _))
  | cons c cs ih =>
    by_cases hdot : c = '.'
    · subst hdot
      have hlhs : FormMan.domainRest ('.' :: cs) = FormMan.tldEnd cs := by
        rw [domainRest_cons]; simp
      rw [hlhs]
      constructor
      · intro h
        exact ⟨[], cs, rfl, by simp, h⟩
      · rintro ⟨d, t, heq, hd, ht⟩
        cases d with
        | nil =>
          injection heq with h1 h2
          rw [h2]; exact ht
        | cons c0 d =>
          rw [List.cons_append] at heq
          injection heq with h1 h2
          exact absurd (Or.inl h1.symm) (hd c0 (List.mem_cons_self _ _))
    · by_cases hbadc : c = '@' ∨ jsSpace c = true
      · have hlhs : FormMan.domainRest (c :: cs) = false := by
          rw [domainRest_cons]
          rw [if_neg (by simp [hdot]), if_pos (by
            rcases hbadc with h | h
            · simp [h]
            · simp [h])]
        rw [hlhs]
        simp only [Bool.false_eq_true, false_iff]
        rintro ⟨d, t, heq, hd, -⟩
        cases d with
        | nil =>
          injection heq with h1 h2
          exact hdot h1
        | cons c0 d =>
          rw [List.cons_append] at heq
          injection heq with h1 h2
          subst h1
          exact (hd c (List.mem_cons_self _ _)) (Or.inr hbadc)
      · push_neg at hbadc
        have hlhs : FormMan.domainRest (c :: cs) = FormMan.domainRest cs := by
          rw [domainRest_cons]
          rw [if_neg (by simp [hdot]), if_neg (by simp [hbadc.1, hbadc.2])]
        rw [hlhs, ih]
        constructor
        · rintro ⟨d, t, heq, hd, ht⟩
          refine ⟨c :: d, t, by simp [heq], ?_, ht⟩
          intro x hx
          rcases List.mem_cons.mp hx with rfl | hx
          · rintro (h | h | h)
            · exact hdot h
            · exact hbadc.1 h
            · exact hbadc.2 h
          · exact hd x hx
        · rintro ⟨d, t, heq, hd, ht⟩
          cases d with
          | nil =>
            injection heq with h1 h2
            exact absurd h1 hdot
          | cons c0 d =>
            rw [List.cons_append] at heq
            injection heq with h1 h2
            subst h1
            refine ⟨d, t, h2, ?_, ht⟩
            intro x hx
            exact hd x (List.mem_cons_of_mem _ hx)

lemma domainStart_iff (cs : List Char) :
    FormMan.domainStart cs = true ↔
      ∃ d t, cs = d ++ '.' :: t ∧ d ≠ [] ∧
        (∀ c ∈ d, ¬(c = '.' ∨ c = '@' ∨ jsSpace c = true)) ∧ FormMan.tldEnd t = true := by
  cases cs with
  | nil =>
    simp only [FormMan.domainStart]
    constructor
    · intro h; cases h
    · rintro ⟨d, t, heq, -, -, -⟩
      exact absurd heq.symm (List.append_ne_nil_of_right_ne_nil d (List.cons_ne_nil _ _))
  | cons c cs =>
    by_cases hbad : c = '.' ∨ c = '@' ∨ jsSpace c = true
    · have hlhs : FormMan.domainStart (c :: cs) = false := by
        rw [domainStart_cons]
        rw [if_pos (by
          rcases hbad with h | h | h
          · simp [h]
          · simp [h]
          · simp [h])]
      rw [hlhs]
      simp only [Bool.false_eq_true, false_iff]
      rintro ⟨d, t, heq, hne, hd, -⟩
      cases d with
      | nil => exact hne rfl
      | cons c0 d =>
        rw [List.cons_append] at heq
        injection heq with h1 h2
        subst h1
        exact (hd c (List.mem_cons_self _ _)) hbad
    · push_neg at hbad
      have hlhs : FormMan.domainStart (c :: cs) = FormMan.domainRest cs := by
        rw [domainStart_cons]
        rw [if_neg (by simp [hbad.1, hbad.2.1, hbad.2.2])]
      rw [hlhs, domainRest_iff]
      constructor
      · rintro ⟨d, t, heq, hd, ht⟩
        refine ⟨c :: d, t, by simp [heq], by simp, ?_, ht⟩
        intro x hx
        rcases List.mem_cons.mp hx with rfl | hx
        · rintro (h | h | h)
          · exact hbad.1 h
          · exact hbad.2.1 h
          · exact hbad.2.2 h
        · exact hd x hx
      · rintro ⟨d, t, heq, hne, hd, ht⟩
        cases d with
        | nil => exact absurd rfl hne
        | cons c0 d =>
          rw [List.cons_append] at heq
          injection heq with h1 h2
          subst h1
          refine ⟨d, t, h2, ?_, ht⟩
          intro x hx
          exact hd x (List.mem_cons_of_mem _ hx)

lemma localRest_iff (cs : List Char) :
    FormMan.localRest cs = true ↔
      ∃ l rest, cs = l ++ '@' :: rest ∧
        (∀ c ∈ l, ¬(c = '@' ∨ jsSpace c = true)) ∧ FormMan.domainStart rest = true := by
  induction cs with
  | nil =>
    simp only [FormMan.localRest]
    constructor
    · intro h; cases h
    · rintro ⟨l, rest, heq, -, -⟩
      exact absurd heq.symm (List.append_ne_nil_of_right_ne_nil l (List.cons_ne_nil _ _))
  | cons c cs ih =>
    by_cases hat : c = '@'
    · subst hat
      have hlhs : FormMan.localRest ('@' :: cs) = FormMan.domainStart cs := by
        rw [localRest_cons]; simp
      rw [hlhs]
      constructor
      · intro h
        exact ⟨[], cs, rfl, by simp, h⟩
      · rintro ⟨l, rest, heq, hl, hrest⟩
        cases l with
        | nil =>
          injection heq with h1 h2
          rw [h2]; exact hrest
        | cons c0 l =>
          rw [List.cons_append] at heq
          injection heq with h1 h2
          exact absurd (Or.inl h1.symm) (hl c0 (List.mem_cons_self _ _))
    · by_cases hsp : jsSpace c = true
      · have hlhs : FormMan.localRest (c :: cs) = false := by
          rw [localRest_cons]
          rw [if_neg (by simp [hat]), if_pos hsp]
        rw [hlhs]
        simp only [Bool.false_eq_true, false_iff]
        rintro ⟨l, rest, heq, hl, -⟩
        cases l with
        | nil =>
          injection heq with h1 h2
          exact hat h1
        | cons c0 l =>
          rw [List.cons_append] at heq
          injection heq with h1 h2
          subst h1
          exact (hl c (List.mem_cons_self _ _)) (Or.inr hsp)
      · have hlhs : FormMan.localRest (c :: cs) = FormMan.localRest cs := by
          rw [localRest_cons]
          rw [if_neg (by simp [hat]), if_neg hsp]
        rw [hlhs, ih]
        constructor
        · rintro ⟨l, rest, heq, hl, hrest⟩
          refine ⟨c :: l, rest, by simp [heq], ?_, hrest⟩
          intro x hx
          rcases List.mem_cons.mp hx with rfl | hx
          · rintro (h | h)
            · exact hat h
            · exact hsp h
          · exact hl x hx
        · rintro ⟨l, rest, heq, hl, hrest⟩
          cases l with
          | nil =>
            injection heq with h1 h2
            exact absurd h1 hat
          | cons c0 l =>
            rw [List.cons_append] at heq
            injection heq with h1 h2
            subst h1
            refine ⟨l, rest, h2, ?_, hrest⟩
            intro x hx
            exact hl x (List.mem_cons_of_mem _ hx)

lemma emailChars_iff (l : List Char) :
    FormMan.emailChars l = true ↔
      ∃ lo d t : List Char,
        l = lo ++ '@' :: (d ++ '.' :: t) ∧ specLocal lo ∧ specDomain d ∧ specTld t := by
  cases l with
  | nil =>
    simp only [FormMan.emailChars]
    constructor
    · intro h; cases h
    · rintro ⟨lo, d, t, heq, ⟨hne, -, -⟩, -, -⟩
      exact absurd heq.symm (List.append_ne_nil_of_right_ne_nil lo (List.cons_ne_nil _ _))
  | cons c cs =>
    by_cases hbad : c = '@' ∨ c = '.' ∨ jsSpace c = true
    · have hlhs : FormMan.emailChars (c :: cs) = false := by
        rw [emailChars_cons]
        rw [if_pos (by
          rcases hbad with h | h | h
          · simp [h]
          · simp [h]
          · simp [h])]
      rw [hlhs]
      simp only [Bool.false_eq_true, false_iff]
      rintro ⟨lo, d, t, heq, ⟨hne, hhead, -⟩, -, -⟩
      cases lo with
      | nil => exact hne rfl
      | cons c0 lo =>
        rw [List.cons_append] at heq
        injection heq with h1 h2
        subst h1
        exact (hhead c rfl) hbad
    · push_neg at hbad
      have hlhs : FormMan.emailChars (c :: cs) = FormMan.localRest cs := by
        rw [emailChars_cons]
        rw [if_neg (by simp [hbad.1, hbad.2.1, hbad.2.2])]
      rw [hlhs, localRest_iff]
      constructor
      · rintro ⟨l, rest, heq, hl, hrest⟩
        obtain ⟨d, t, heq2, hdne, hd, ht⟩ := (domainStart_iff rest).mp hrest
        refine ⟨c :: l, d, t, ?_, ?_, ⟨hdne, hd⟩, (tldEnd_iff t).mp ht⟩
        · rw [heq, heq2]
          simp
        · refine ⟨by simp, ?_, ?_⟩
          · intro x hx
            injection hx with hx
            subst hx
            rintro (h | h | h)
            · exact hbad.1 h
            · exact hbad.2.1 h
            · exact hbad.2.2 h
          · intro x hx
            rcases List.mem_cons.mp hx with rfl | hx
            · rintro (h | h)
              · exact hbad.1 h
              · exact hbad.2.2 h
            · exact hl x hx
      · rintro ⟨lo, d, t, heq, ⟨hne, -, hall⟩, ⟨hdne, hd⟩, ht⟩
        cases lo with
        | nil => exact absurd rfl hne
        | cons c0 l =>
          rw [List.cons_append] at heq
          injection heq with h1 h2
          subst h1
          refine ⟨l, d ++ '.' :: t, h2, ?_, ?_⟩
          · intro x hx
            exact hall x (List.mem_cons_of_mem _ hx)
          · exact (domainStart_iff _).mpr ⟨d, t, rfl, hdne, hd, (tldEnd_iff t).mpr ht⟩

/-- The regex accepts a string exactly when it has the spec's shape. -/
theorem validateEmail_iff_emailShape (s : String) :
    FormMan.validateEmail s = true ↔ emailShape s := by
  unfold FormMan.validateEmail emailShape
  exact emailChars_iff s.toList

lemma lookupStr_cons_isSome (p : String × Nat) (m : List (String × Nat))
    (k : String) (h : (lookupStr m k).isSome = true) :
    (lookupStr (p :: m) k).isSome = true := by
  unfold lookupStr at h ⊢
  rw [List.find?_cons]
  cases hpk : p.1 == k
  · simpa [hpk] using h
  · simp [hpk]

namespace IndexJs

lemma submitStep_error (v : Validators) (p : List (String × String))
    (f : Option Input) (i : Input) : submitStep v ⟨p, true, f⟩ i = ⟨p, true, f⟩ := by
  by_cases h1 : i.type == "submit" <;> simp [submitStep, h1]

lemma foldl_submitStep_error (v : Validators) :
    ∀ (l : List Input) (p : List (String × String)) (f : Option Input),
      l.foldl (submitStep v) ⟨p, true, f⟩ = ⟨p, true, f⟩ := by
  intro l
  induction l with
  | nil => intro p f; rfl
  | cons i l ih =>
    intro p f
    rw [List.foldl_cons, submitStep_error]
    exact ih p f

/-- Characterization of the index.js loop: with no rejected input the payload
collects every non-submit pair; otherwise the loop stops appending at the
first rejected input, which is focused. -/
lemma foldl_submitStep_ok (v : Validators) :
    ∀ (l : List Input) (p : List (String × String)),
      l.foldl (submitStep v) ⟨p, false, none⟩ =
        match l.find? (rejected v) with
        | none => ⟨p ++ pairsOf l, false, none⟩
        | some b => ⟨p ++ pairsOf (l.takeWhile (fun i => !(rejected v i))), true, some b⟩ := by
  intro l
  induction l with
  | nil => intro p; simp [pairsOf]
  | cons i l ih =>
    intro p
    by_cases hsub : i.type == "submit"
    · have hrej : rejected v i = false := by simp [rejected, bne, hsub]
      have hstep : submitStep v ⟨p, false, none⟩ i = ⟨p, false, none⟩ := by
        simp [submitStep, hsub]
      rw [List.foldl_cons, hstep, ih,
        List.find?_cons_of_neg _ (by simp [hrej]),
        List.takeWhile_cons_of_pos (by simp [hrej])]
      cases hfind : l.find? (rejected v) <;> simp [pairsOf, nonSubmitPair, hsub]
    · by_cases hfail : failsValidation v i
      · have hrej : rejected v i = true := by simp [rejected, bne, hsub, hfail]
        have hstep : submitStep v ⟨p, false, none⟩ i = ⟨p, true, some i⟩ := by
          simp [submitStep, hsub, hfail]
        rw [List.foldl_cons, hstep, foldl_submitStep_error,
          List.find?_cons_of_pos _ hrej,
          List.takeWhile_cons_of_neg (by simp [hrej])]
        simp [pairsOf]
      · have hrej : rejected v i = false := by simp [rejected, bne, hsub, hfail]
        have hstep : submitStep v ⟨p, false, none⟩ i =
            ⟨p ++ [(i.name, i.value)], false, none⟩ := by
          simp [submitStep, hsub, hfail]
        rw [List.foldl_cons, hstep, ih,
          List.find?_cons_of_neg _ (by simp [hrej]),
          List.takeWhile_cons_of_pos (by simp [hrej])]
        cases hfind : l.find? (rejected v) <;> simp [pairsOf, nonSubmitPair, hsub]

lemma reach_listeners {s : SubmitHandling} (h : Reach s) :
    s.listeners = if s.isHandlingSubmit then [()] else [] := by
  induction h with
  | fromNew => simp [newHandling, addListener]
  | stepEnable h ih =>
    rename_i s
    by_cases hh : s.isHandlingSubmit <;>
      simp_all [enableSubmitHandling, addListener]
  | stepDisable h ih =>
    rename_i s
    by_cases hh : s.isHandlingSubmit <;>
      simp_all [disableSubmitHandling]

lemma manageForm_of_managedKey {s : RegistryState} {f : FormRef}
    (h : managedKey s f) : (manageForm s f).2 = s := by
  rcases h with h | h
  · rw [Option.isSome_iff_exists] at h
    obtain ⟨a, ha⟩ := h
    simp [manageForm, ha]
  · rw [Option.isSome_iff_exists] at h
    obtain ⟨a, ha⟩ := h
    cases hn : lookupStr s.byName f.name <;> simp [manageForm, hn, ha]

lemma managedKey_manageForm (s : RegistryState) (f : FormRef) :
    managedKey (manageForm s f).2 f := by
  unfold managedKey manageForm
  cases hn : lookupStr s.byName f.name with
  | some a => left; simp [hn]
  | none =>
    cases hi : lookupStr s.byID f.id with
    | some a => right; simp [hi]
    | none => left; simp [lookupStr]

lemma managedKey_mono {s : RegistryState} {f : FormRef} (g : FormRef)
    (h : managedKey s f) : managedKey (manageForm s g).2 f := by
  unfold manageForm
  cases hn : lookupStr s.byName g.name with
  | some a => exact h
  | none =>
    cases hi : lookupStr s.byID g.id with
    | some a => exact h
    | none =>
      rcases h with h | h
      · exact Or.inl (lookupStr_cons_isSome _ _ _ h)
      · exact Or.inr (lookupStr_cons_isSome _ _ _ h)

lemma loadAllForms_mono {s : RegistryState} {f : FormRef} (doc : List FormRef)
    (h : managedKey s f) : managedKey (loadAllForms doc s) f := by
  induction doc generalizing s with
  | nil => exact h
  | cons g doc ih => exact ih (managedKey_mono g h)

lemma loadAllForms_mem (doc : List FormRef) (s : RegistryState) :
    ∀ f ∈ doc, managedKey (loadAllForms doc s) f := by
  induction doc generalizing s with
  | nil => intro f hf; cases hf
  | cons g doc ih =>
    intro f hf
    rcases List.mem_cons.mp hf with rfl | hf
    · exact loadAllForms_mono doc (managedKey_manageForm s f)
    · exact ih (manageForm s g).2 f hf

lemma loadAllForms_of_all_managed {doc : List FormRef} {s : RegistryState}
    (h : ∀ f ∈ doc, managedKey s f) : loadAllForms doc s = s := by
  induction doc with
  | nil => rfl
  | cons g doc ih =>
    have hg : (manageForm s g).2 = s := manageForm_of_managedKey (h g (by simp))
    show loadAllForms doc (manageForm s g).2 = s
    rw [hg]
    exact ih (fun f hf => h f (List.mem_cons_of_mem _ hf))

/-- Running `loadAllForms` a second time changes nothing. -/
lemma loadAllForms_idem (doc : List FormRef) (s : RegistryState) :
    loadAllForms doc (loadAllForms doc s) = loadAllForms doc s :=
  loadAllForms_of_all_managed (loadAllForms_mem doc s)

end IndexJs

namespace FormMan

lemma foldl_loopStep_error (v : Validators) :
    ∀ (l : List Input) (p : List (String × String)) (f : Option Input),
      l.foldl (loopStep v) ⟨p, true, f⟩ = ⟨p ++ pairsOf l, true, f⟩ := by
  intro l
  induction l with
  | nil => intro p f; simp [pairsOf]
  | cons i l ih =>
    intro p f
    by_cases hsub : i.type == "submit"
    · have hstep : loopStep v ⟨p, true, f⟩ i = ⟨p, true, f⟩ := by
        simp [loopStep, hsub]
      rw [List.foldl_cons, hstep, ih]
      simp [pairsOf, nonSubmitPair, hsub]
    · have hstep : loopStep v ⟨p, true, f⟩ i = ⟨p ++ [(i.name, i.value)], true, f⟩ := by
        simp [loopStep, hsub]
      rw [List.foldl_cons, hstep, ih]
      simp [pairsOf, nonSubmitPair, hsub]

/-- Characterization of the part_000 loop: the first rejected input is
focused and its pair skipped, but pairs both before and after it are
collected. -/
lemma foldl_loopStep_ok (v : Validators) :
    ∀ (l : List Input) (p : List (String × String)),
      l.foldl (loopStep v) ⟨p, false, none⟩ =
        match l.find? (rejected v) with
        | none => ⟨p ++ pairsOf l, false, none⟩
        | some b =>
          ⟨p ++ pairsOf (l.takeWhile (fun i => !(rejected v i)))
             ++ pairsOf ((l.dropWhile (fun i => !(rejected v i))).tail),
           true, some b⟩ := by
  intro l
  induction l with
  | nil => intro p; simp [pairsOf]
  | cons i l ih =>
    intro p
    by_cases hrej : rejected v i
    · have hsub : ¬(i.type == "submit") = true := by
        intro hs
        simp [rejected, bne, hs] at hrej
      have hfail : failsValidation v i = true := by
        simpa [rejected, bne, hsub] using hrej
      have hstep : loopStep v ⟨p, false, none⟩ i = ⟨p, true, some i⟩ := by
        simp [loopStep, hsub, hfail]
      rw [List.foldl_cons, hstep, foldl_loopStep_error,
        List.find?_cons_of_pos _ hrej,
        List.takeWhile_cons_of_neg (by simp [hrej]),
        List.dropWhile_cons_of_neg (by simp [hrej])]
      simp [pairsOf]
    · by_cases hsub : i.type == "submit"
      · have hstep : loopStep v ⟨p, false, none⟩ i = ⟨p, false, none⟩ := by
          simp [loopStep, hsub]
        rw [List.foldl_cons, hstep, ih,
          List.find?_cons_of_neg _ (by simp [hrej]),
          List.takeWhile_cons_of_pos (by simpa using hrej),
          List.dropWhile_cons_of_pos (by simpa using hrej)]
        cases hfind : l.find? (rejected v) <;> simp [pairsOf, nonSubmitPair, hsub]
      · have hfail : failsValidation v i = false := by
          by_contra hc
          have hc2 : failsValidation v i = true := by
            cases hff : failsValidation v i
            · exact absurd hff hc
            · rfl
          exact hrej (by simp [rejected, bne, hsub, hc2])
        have hstep : loopStep v ⟨p, false, none⟩ i =
            ⟨p ++ [(i.name, i.value)], false, none⟩ := by
          simp [loopStep, hsub, hfail]
        rw [List.foldl_cons, hstep, ih,
          List.find?_cons_of_neg _ (by simp [hrej]),
          List.takeWhile_cons_of_pos (by simpa using hrej),
          List.dropWhile_cons_of_pos (by simpa using hrej)]
        cases hfind : l.find? (rejected v) <;> simp [pairsOf, nonSubmitPair, hsub]

lemma fmReach_inv {s : FormState} (h : FMReach s) :
    ∃ hd, s.submitFn = some hd ∧ s.listeners = [hd] := by
  induction h with
  | fromNew =>
    exact ⟨⟨0, .active⟩, by simp [newForm, activate, setSubmitFunction, addListener]⟩
  | stepActivate h ih =>
    rename_i s
    obtain ⟨hd, h1, h2⟩ := ih
    exact ⟨⟨s.gen, .active⟩,
      by simp [activate, setSubmitFunction, h1, h2, addListener]⟩
  | stepDisable h ih =>
    rename_i s
    obtain ⟨hd, h1, h2⟩ := ih
    exact ⟨⟨s.gen, .passive⟩,
      by simp [disable, setSubmitFunction, h1, h2, addListener]⟩

lemma initForm_of_found {r : Registry} {f : FormRef}
    (h : (lookupStr r.forms f.name).isSome = true) : initForm r f = r := by
  rw [Option.isSome_iff_exists] at h
  obtain ⟨a, ha⟩ := h
  simp [initForm, ha]

lemma found_initForm (r : Registry) (f : FormRef) :
    (lookupStr (initForm r f).forms f.name).isSome = true := by
  unfold initForm
  cases hn : lookupStr r.forms f.name with
  | some a => simp [hn]
  | none => simp [lookupStr]

lemma found_initForm_mono {r : Registry} {f : FormRef} (g : FormRef)
    (h : (lookupStr r.forms f.name).isSome = true) :
    (lookupStr (initForm r g).forms f.name).isSome = true := by
  unfold initForm
  cases hn : lookupStr r.forms g.name with
  | some a => exact h
  | none => exact lookupStr_cons_isSome _ _ _ h

lemma initAllForms_mono {r : Registry} {f : FormRef} (doc : List FormRef)
    (h : (lookupStr r.forms f.name).isSome = true) :
    (lookupStr (initAllForms doc r).forms f.name).isSome = true := by
  induction doc generalizing r with
  | nil => exact h
  | cons g doc ih => exact ih (found_initForm_mono g h)

lemma initAllForms_mem (doc : List FormRef) (r : Registry) :
    ∀ f ∈ doc, (lookupStr (initAllForms doc r).forms f.name).isSome = true := by
  induction doc generalizing r with
  | nil => intro f hf; cases hf
  | cons g doc ih =>
    intro f hf
    rcases List.mem_cons.mp hf with rfl | hf
    · exact initAllForms_mono doc (found_initForm r f)
    · exact ih (initForm r g) f hf

lemma initAllForms_of_all_found {doc : List FormRef} {r : Registry}
    (h : ∀ f ∈ doc, (lookupStr r.forms f.name).isSome = true) :
    initAllForms doc r = r := by
  induction doc with
  | nil => rfl
  | cons g doc ih =>
    have hg : initForm r g = r := initForm_of_found (h g (by simp))
    show initAllForms doc (initForm r g) = r
    rw [hg]
    exact ih (fun f hf => h f (List.mem_cons_of_mem _ hf))

/-- Running `initAllForms` a second time changes nothing. -/
lemma initAllForms_idem (doc : List FormRef) (r : Registry) :
    initAllForms doc (initAllForms doc r) = initAllForms doc r :=
  initAllForms_of_all_found (initAllForms_mem doc r)

end FormMan

/-! ## The claims -/

/-- C1: For every form and every submit event while interception is enabled,
if some registered validator on a field returns false for that field's
input, then no fetch occurs, the default submit navigation is suppressed,
and the first input whose validator returned false receives focus — in both
revisions (`onSubmit` is the handler index.js attaches while interception is
enabled; `activateHandler` is the one part_000's `activate` installs). -/
theorem c1_failed_validation_blocks_dispatch
    (form : FormElement) (v : Validators) (fetchInit : IndexJs.RequestInit)
    (h : ∃ i ∈ form.inputs, rejected v i = true) :
    (IndexJs.onSubmit form v fetchInit).fetched = none ∧
    (IndexJs.onSubmit form v fetchInit).defaultPrevented = true ∧
    (IndexJs.onSubmit form v fetchInit).focused = form.inputs.find? (rejected v) ∧
    (FormMan.activateHandler form v).fetched = none ∧
    (FormMan.activateHandler form v).defaultPrevented = true ∧
    (FormMan.activateHandler form v).focused = form.inputs.find? (rejected v) := by
  have hfind : (form.inputs.find? (rejected v)).isSome = true := by
    rw [List.find?_isSome]
    obtain ⟨i, hi, hri⟩ := h
    exact ⟨i, hi, hri⟩
  rw [Option.isSome_iff_exists] at hfind
  obtain ⟨b, hb⟩ := hfind
  simp only [IndexJs.onSubmit, IndexJs.runLoop, FormMan.activateHandler]
  rw [IndexJs.foldl_submitStep_ok, FormMan.foldl_loopStep_ok, hb]
  simp

/-- C1 witness at a concrete form whose field `a` has an always-false
validator. -/
theorem c1_witness :
    (IndexJs.onSubmit ⟨"f", "f", "/a", "get", [⟨"a", "text", "1"⟩, ⟨"b", "text", "2"⟩]⟩
        (fun n => if n = "a" then some (fun _ => false) else none) {}).fetched = none ∧
    (FormMan.activateHandler ⟨"f", "f", "/a", "get", [⟨"a", "text", "1"⟩, ⟨"b", "text", "2"⟩]⟩
        (fun n => if n = "a" then some (fun _ => false) else none)).fetched = none := by
  have h := c1_failed_validation_blocks_dispatch
    ⟨"f", "f", "/a", "get", [⟨"a", "text", "1"⟩, ⟨"b", "text", "2"⟩]⟩
    (fun n => if n = "a" then some (fun _ => false) else none) {}
    ⟨⟨"a", "text", "1"⟩, by decide, by decide⟩
  exact ⟨h.1, h.2.2.2.1⟩

/-- C2: For every form with no registered validators, every submit produces
a payload holding exactly the (name, value) pair of every non-submit input,
in DOM order, and the dispatch carries that payload — in both revisions. -/
theorem c2_no_validators_full_payload (form : FormElement)
    (fetchInit : IndexJs.RequestInit) :
    (IndexJs.onSubmit form (fun _ => none) fetchInit).payload = pairsOf form.inputs ∧
    (IndexJs.onSubmit form (fun _ => none) fetchInit).fetched.isSome = true ∧
    (FormMan.activateHandler form (fun _ => none)).payload = pairsOf form.inputs ∧
    (FormMan.activateHandler form (fun _ => none)).fetched =
      some { url := form.action, method := "POST", redirect := "follow",
             headers := [("X-Doji-Fetch", "true")], body := pairsOf form.inputs } := by
  have hfind : form.inputs.find? (rejected (fun _ => none)) = none := by
    rw [List.find?_eq_none]
    intro i _
    simp [rejected, failsValidation]
  simp only [IndexJs.onSubmit, IndexJs.runLoop, FormMan.activateHandler]
  rw [IndexJs.foldl_submitStep_ok, FormMan.foldl_loopStep_ok, hfind]
  simp

/-- C3 counterexample: in the part_000 revision, after field `a`'s validator
fails, the subsequent field `b`'s pair IS appended to the payload (the claim
says no subsequent pair is appended once failure is recorded). The failing
field itself is skipped and focused, and no dispatch occurs. -/
theorem c3_counterexample :
    FormMan.activateHandler
        ⟨"f", "f", "/a", "get", [⟨"a", "text", "1"⟩, ⟨"b", "text", "2"⟩]⟩
        (fun n => if n = "a" then some (fun _ => false) else none) =
      { defaultPrevented := true, payload := [("b", "2")],
        focused := some ⟨"a", "text", "1"⟩, fetched := none } := by
  decide

/-- C3 amended: once a validator failure is recorded, only the first failing
field is focused and its own pair is never appended, and no dispatch occurs;
in the index.js revision no later pair is appended either (the payload is
exactly the non-submit pairs strictly before the first failing input), while
in the part_000 revision every later non-submit pair is still appended to
the local payload, which is then discarded undispatched. -/
theorem c3_amended_payload_after_failure (form : FormElement) (v : Validators)
    (fetchInit : IndexJs.RequestInit) (b : Input)
    (hb : form.inputs.find? (rejected v) = some b) :
    (IndexJs.onSubmit form v fetchInit).payload
        = pairsOf (form.inputs.takeWhile (fun i => !(rejected v i))) ∧
    (IndexJs.onSubmit form v fetchInit).focused = some b ∧
    (IndexJs.onSubmit form v fetchInit).fetched = none ∧
    (FormMan.activateHandler form v).payload
        = pairsOf (form.inputs.takeWhile (fun i => !(rejected v i)))
          ++ pairsOf ((form.inputs.dropWhile (fun i => !(rejected v i))).tail) ∧
    (FormMan.activateHandler form v).focused = some b ∧
    (FormMan.activateHandler form v).fetched = none := by
  simp only [IndexJs.onSubmit, IndexJs.runLoop, FormMan.activateHandler]
  rw [IndexJs.foldl_submitStep_ok, FormMan.foldl_loopStep_ok, hb]
  simp

/-- C3 witness at the counterexample's concrete input. -/
theorem c3_witness :
    (IndexJs.onSubmit ⟨"f", "f", "/a", "get", [⟨"a", "text", "1"⟩, ⟨"b", "text", "2"⟩]⟩
        (fun n => if n = "a" then some (fun _ => false) else none) {}).payload = [] ∧
    (FormMan.activateHandler ⟨"f", "f", "/a", "get", [⟨"a", "text", "1"⟩, ⟨"b", "text", "2"⟩]⟩
        (fun n => if n = "a" then some (fun _ => false) else none)).fetched = none := by
  have h := c3_amended_payload_after_failure
    ⟨"f", "f", "/a", "get", [⟨"a", "text", "1"⟩, ⟨"b", "text", "2"⟩]⟩
    (fun n => if n = "a" then some (fun _ => false) else none) {}
    ⟨"a", "text", "1"⟩ (by decide)
  refine ⟨?_, h.2.2.2.2.2⟩
  rw [h.1]
  decide

/-- C4: initialising an already-managed form is a no-op: `manageForm`
returns the existing instance and leaves the registry untouched, exactly one
submit listener is attached after repeated management, part_000's `initForm`
leaves its registry untouched on a hit, and both all-forms initialisers are
idempotent. -/
theorem c4_reinitialization_noop :
    (∀ (s : IndexJs.RegistryState) (f : FormRef) (a : Nat)
       (s1 : IndexJs.RegistryState),
      IndexJs.manageForm s f = (a, s1) → IndexJs.manageForm s1 f = (a, s1)) ∧
    (∀ f : FormRef,
      (IndexJs.listenersOn
        (IndexJs.manageForm (IndexJs.manageForm IndexJs.emptyRegistry f).2 f).2
        f.eid).length = 1) ∧
    (∀ (doc : List FormRef) (s : IndexJs.RegistryState),
      IndexJs.loadAllForms doc (IndexJs.loadAllForms doc s)
        = IndexJs.loadAllForms doc s) ∧
    (∀ (r : FormMan.Registry) (f : FormRef),
      (lookupStr r.forms f.name).isSome = true → FormMan.initForm r f = r) ∧
    (∀ (doc : List FormRef) (r : FormMan.Registry),
      FormMan.initAllForms doc (FormMan.initAllForms doc r)
        = FormMan.initAllForms doc r) := by
  refine ⟨?_, ?_, IndexJs.loadAllForms_idem, ?_, FormMan.initAllForms_idem⟩
  · intro s f a s1 h
    unfold IndexJs.manageForm at h ⊢
    cases hn : lookupStr s.byName f.name with
    | some x =>
      rw [hn] at h
      injection h with h1 h2
      subst h1
      subst h2
      rw [hn]
    | none =>
      rw [hn] at h
      cases hi : lookupStr s.byID f.id with
      | some x =>
        rw [hi] at h
        injection h with h1 h2
        subst h1
        subst h2
        rw [hn, hi]
      | none =>
        rw [hi] at h
        injection h with h1 h2
        subst h1
        subst h2
        simp [lookupStr]
  · intro f
    have h1 : IndexJs.manageForm IndexJs.emptyRegistry f
        = (0, ⟨[(f.name, 0)], [(f.id, 0)], 1, [(0, f.eid)], [(f.eid, 0)]⟩) := by
      simp [IndexJs.manageForm, IndexJs.emptyRegistry, lookupStr, addListener]
    rw [h1]
    have h2 : IndexJs.manageForm
        (⟨[(f.name, 0)], [(f.id, 0)], 1, [(0, f.eid)], [(f.eid, 0)]⟩ :
          IndexJs.RegistryState) f
        = (0, ⟨[(f.name, 0)], [(f.id, 0)], 1, [(0, f.eid)], [(f.eid, 0)]⟩) := by
      simp [IndexJs.manageForm, lookupStr]
    rw [h2]
    simp [IndexJs.listenersOn]
  · intro r f h
    exact FormMan.initForm_of_found h

/-- C4 witness: managing the same form reference twice from the empty
registry, and a FormMan registry hit. -/
theorem c4_witness :
    IndexJs.manageForm (IndexJs.manageForm IndexJs.emptyRegistry ⟨0, "f", "g"⟩).2
        ⟨0, "f", "g"⟩
      = ((IndexJs.manageForm IndexJs.emptyRegistry ⟨0, "f", "g"⟩).1,
         (IndexJs.manageForm IndexJs.emptyRegistry ⟨0, "f", "g"⟩).2) ∧
    FormMan.initForm ⟨[("f", 0)], [(0, 7)], 1⟩ ⟨9, "f", "g"⟩
      = ⟨[("f", 0)], [(0, 7)], 1⟩ := by
  refine ⟨c4_reinitialization_noop.1 IndexJs.emptyRegistry ⟨0, "f", "g"⟩
    (IndexJs.manageForm IndexJs.emptyRegistry ⟨0, "f", "g"⟩).1
    (IndexJs.manageForm IndexJs.emptyRegistry ⟨0, "f", "g"⟩).2 rfl, ?_⟩
  exact c4_reinitialization_noop.2.2.2.1 ⟨[("f", 0)], [(0, 7)], 1⟩ ⟨9, "f", "g"⟩ (by decide)

/-- C5: at most one submit handler is ever attached in any reachable state:
index.js keeps exactly one listener while intercepting and none otherwise,
enabling twice equals enabling once, disable-then-enable restores the exact
prior state; part_000's `setSubmitFunction` detaches the previous handler,
so every reachable `Form` state has exactly the one listener `_submitFn`,
and activating (also after a disable) dispatches the full
validation-and-dispatch pipeline exactly once. -/
theorem c5_single_handler_invariant :
    (∀ s : IndexJs.SubmitHandling, IndexJs.Reach s →
      s.listeners = if s.isHandlingSubmit then [()] else []) ∧
    (∀ s : IndexJs.SubmitHandling,
      IndexJs.enableSubmitHandling (IndexJs.enableSubmitHandling s)
        = IndexJs.enableSubmitHandling s) ∧
    (∀ s : IndexJs.SubmitHandling, IndexJs.Reach s → s.isHandlingSubmit = true →
      IndexJs.enableSubmitHandling (IndexJs.disableSubmitHandling s) = s) ∧
    (∀ s : FormMan.FormState, FormMan.FMReach s →
      ∃ hd, s.submitFn = some hd ∧ s.listeners = [hd]) ∧
    (∀ (s : FormMan.FormState) (form : FormElement) (v : Validators),
      FormMan.FMReach s →
      FormMan.dispatchOutcomes (FormMan.activate s) form v
          = [FormMan.activateHandler form v] ∧
      FormMan.dispatchOutcomes (FormMan.activate (FormMan.disable s)) form v
          = [FormMan.activateHandler form v]) := by
  refine ⟨fun s h => IndexJs.reach_listeners h, ?_, ?_, fun s h => FormMan.fmReach_inv h, ?_⟩
  · intro s
    by_cases h : s.isHandlingSubmit <;>
      simp [IndexJs.enableSubmitHandling, h]
  · intro s hr hi
    have hl := IndexJs.reach_listeners hr
    rw [hi] at hl
    simp only [if_true] at hl
    cases s with
    | mk b ls =>
      simp only at hi hl
      subst hi
      subst hl
      decide
  · intro s form v hr
    obtain ⟨hd, h1, h2⟩ := FormMan.fmReach_inv hr
    constructor
    · simp [FormMan.dispatchOutcomes, FormMan.activate, FormMan.setSubmitFunction,
        h1, h2, addListener, FormMan.runHandler]
    · simp [FormMan.dispatchOutcomes, FormMan.activate, FormMan.disable,
        FormMan.setSubmitFunction, h1, h2, addListener, FormMan.runHandler]

/-- C5 witness: disable-then-enable on a freshly managed index.js form
restores it, and disable-then-activate on a fresh part_000 form dispatches
the full pipeline exactly once. -/
theorem c5_witness :
    IndexJs.enableSubmitHandling (IndexJs.disableSubmitHandling IndexJs.newHandling)
        = IndexJs.newHandling ∧
    FormMan.dispatchOutcomes (FormMan.activate (FormMan.disable FormMan.newForm))
        ⟨"f", "f", "/a", "get", []⟩ (fun _ => none)
      = [FormMan.activateHandler ⟨"f", "f", "/a", "get", []⟩ (fun _ => none)] :=
  ⟨c5_single_handler_invariant.2.2.1 IndexJs.newHandling IndexJs.Reach.fromNew rfl,
   (c5_single_handler_invariant.2.2.2.2 FormMan.newForm ⟨"f", "f", "/a", "get", []⟩
      (fun _ => none) FormMan.FMReach.fromNew).2⟩

/-- C6: while a managed form is PASSIVE, no submit event causes a network
dispatch from the library's handler: in index.js the handler is detached, so
a submit runs no library code at all; in part_000 the installed passive
handler only prevents the default, fetching nothing. -/
theorem c6_passive_no_dispatch :
    (∀ (s : IndexJs.SubmitHandling) (form : FormElement) (v : Validators)
       (fetchInit : IndexJs.RequestInit), IndexJs.Reach s →
      s.isHandlingSubmit = false →
      IndexJs.dispatchResults s form v fetchInit = []) ∧
    (∀ (s : FormMan.FormState) (hd : FormMan.SubmitHandler) (form : FormElement)
       (v : Validators), FormMan.FMReach s → s.submitFn = some hd →
      hd.kind = FormMan.HandlerKind.passive →
      FormMan.dispatchOutcomes s form v
        = [{ defaultPrevented := true, payload := [], focused := none,
             fetched := none }]) := by
  constructor
  · intro s form v fetchInit hr hp
    have hl := IndexJs.reach_listeners hr
    rw [hp] at hl
    simp only [if_false, Bool.false_eq_true] at hl
    simp [IndexJs.dispatchResults, hl]
  · intro s hd form v hr hfn hk
    obtain ⟨hd0, h1, h2⟩ := FormMan.fmReach_inv hr
    rw [hfn] at h1
    injection h1 with h1
    subst h1
    simp [FormMan.dispatchOutcomes, h2, FormMan.runHandler, hk]

/-- C6 witness: a freshly disabled form in each revision. -/
theorem c6_witness :
    IndexJs.dispatchResults (IndexJs.disableSubmitHandling IndexJs.newHandling)
        ⟨"f", "f", "/a", "get", []⟩ (fun _ => none) {} = [] ∧
    FormMan.dispatchOutcomes (FormMan.disable FormMan.newForm)
        ⟨"f", "f", "/a", "get", []⟩ (fun _ => none)
      = [{ defaultPrevented := true, payload := [], focused := none,
           fetched := none }] :=
  ⟨c6_passive_no_dispatch.1 _ ⟨"f", "f", "/a", "get", []⟩ (fun _ => none) {}
      (IndexJs.Reach.stepDisable IndexJs.Reach.fromNew) rfl,
   c6_passive_no_dispatch.2 _ ⟨1, .passive⟩ ⟨"f", "f", "/a", "get", []⟩ (fun _ => none)
      (FormMan.FMReach.stepDisable FormMan.FMReach.fromNew) rfl rfl⟩

/-- C7 counterexample: in the index.js revision a successful dispatch hands
the fetch promise to the response callback unconditionally — before and thus
regardless of the response, so also when the response was reached via a
redirect — and the handler contains no navigation, contradicting the claim's
redirect clause (navigate and do not invoke the callback). -/
theorem c7_counterexample :
    (IndexJs.onSubmit ⟨"f", "f", "/a", "get", [⟨"a", "text", "1"⟩]⟩
        (fun _ => none) {}).fetched.isSome = true ∧
    (IndexJs.onSubmit ⟨"f", "f", "/a", "get", [⟨"a", "text", "1"⟩]⟩
        (fun _ => none) {}).callbackInvoked = true ∧
    (IndexJs.onSubmit ⟨"f", "f", "/a", "get", [⟨"a", "text", "1"⟩]⟩
        (fun _ => none) {}).navigatedTo = none := by
  decide

/-- C7 amended: redirect handling lives only in the part_000 revision: there
a redirected response navigates the page to the response's final URL and all
further response processing is suppressed, while a non-redirected response
has its resolved text handed to the logging sink. In the index.js revision
the response callback (a discard-silently no-op unless the caller registered
one) is handed the fetch promise on every successful dispatch, redirected or
not, and no navigation is performed. -/
theorem c7_amended_response_handling (r : FormMan.Response)
    (form : FormElement) (v : Validators) (fetchInit : IndexJs.RequestInit) :
    (r.redirected = true → FormMan.responseChain r = (some r.url, none)) ∧
    (r.redirected = false → FormMan.responseChain r = (none, some r.text)) ∧
    (IndexJs.onSubmit form v fetchInit).navigatedTo = none ∧
    ((IndexJs.onSubmit form v fetchInit).fetched.isSome = true →
      (IndexJs.onSubmit form v fetchInit).callbackInvoked = true) := by
  refine ⟨?_, ?_, ?_, ?_⟩
  · intro h
    simp [FormMan.responseChain, FormMan.redirectStep, h]
  · intro h
    simp [FormMan.responseChain, FormMan.redirectStep, h]
  · by_cases h : (IndexJs.runLoop v form.inputs).error <;>
      simp [IndexJs.onSubmit, h]
  · intro hf
    by_cases h : (IndexJs.runLoop v form.inputs).error
    · simp [IndexJs.onSubmit, h] at hf
    · simp [IndexJs.onSubmit, h]

/-- C7 witness: the spec's concrete example, a redirected response with url
`https://x/y`. -/
theorem c7_witness :
    FormMan.responseChain ⟨true, "https://x/y", "body"⟩ = (some "https://x/y", none) :=
  (c7_amended_response_handling ⟨true, "https://x/y", "body"⟩
    ⟨"f", "f", "/a", "get", []⟩ (fun _ => none) {}).1 rfl

/-- C8 counterexample: the part_000 revision dispatches with method `POST`
even though the form declares method `get` (the claim says the dispatch uses
the form's declared method). -/
theorem c8_counterexample :
    (FormMan.activateHandler ⟨"f", "f", "https://e/x", "get", [⟨"a", "text", "1"⟩]⟩
        (fun _ => none)).fetched
      = some { url := "https://e/x", method := "POST", redirect := "follow",
               headers := [("X-Doji-Fetch", "true")], body := [("a", "1")] } := by
  decide

/-- C8 amended: on a validation-free or fully passing submit both revisions
dispatch to the form's declared action URL; index.js uses the form's
declared method verbatim (a caller-supplied fetch override takes
precedence), while part_000 always dispatches with method `POST`, redirect
`follow` and the `X-Doji-Fetch` marker header, regardless of the declared
method. -/
theorem c8_amended_dispatch_target (form : FormElement) (v : Validators)
    (fetchInit : IndexJs.RequestInit)
    (h : form.inputs.find? (rejected v) = none) :
    (IndexJs.onSubmit form v fetchInit).fetched
        = some { url := form.action,
                 method := fetchInit.method.getD form.method,
                 body := fetchInit.body.getD (pairsOf form.inputs) } ∧
    (FormMan.activateHandler form v).fetched
        = some { url := form.action, method := "POST", redirect := "follow",
                 headers := [("X-Doji-Fetch", "true")],
                 body := pairsOf form.inputs } := by
  simp only [IndexJs.onSubmit, IndexJs.runLoop, FormMan.activateHandler]
  rw [IndexJs.foldl_submitStep_ok, FormMan.foldl_loopStep_ok, h]
  simp

/-- C8 witness: a concrete passing submit in the index.js revision with no
overrides dispatches to the declared action with the declared method. -/
theorem c8_witness :
    (IndexJs.onSubmit ⟨"f", "f", "/a", "post", [⟨"a", "text", "1"⟩]⟩
        (fun _ => none) {}).fetched
      = some { url := "/a", method := "post", body := [("a", "1")] } :=
  (c8_amended_dispatch_target ⟨"f", "f", "/a", "post", [⟨"a", "text", "1"⟩]⟩
    (fun _ => none) {} (by decide)).1

/-- C9: `validateEmail` accepts exactly the strings of the shape
`local@domain.tld` with the spec's constraints on the three parts, and the
spec's four concrete examples evaluate as stated. -/
theorem c9_validate_email_contract :
    (∀ s : String, FormMan.validateEmail s = true ↔ emailShape s) ∧
    FormMan.validateEmail "a@b.co" = true ∧
    FormMan.validateEmail "a@b.c" = false ∧
    FormMan.validateEmail "@b.co" = false ∧
    FormMan.validateEmail "a b@c.co" = false :=
  ⟨validateEmail_iff_emailShape, by decide, by decide, by decide, by decide⟩

/-- C10: registry lookup is keyed only by the name and id strings, never by
element identity: after managing element `f`, managing any element `g`
sharing `f`'s name key or id key — `g`'s own identity `eid` is arbitrary,
including the case where both forms have empty name and id — returns the
existing instance (which wraps `f`'s element) and leaves the registry
unchanged, constructing nothing; part_000's name-keyed `initForm` likewise
constructs nothing for a second element with the same name. -/
theorem c10_registry_keyed_by_strings (f g : FormRef)
    (h : g.name = f.name ∨ g.id = f.id) :
    IndexJs.manageForm (IndexJs.manageForm IndexJs.emptyRegistry f).2 g
        = ((IndexJs.manageForm IndexJs.emptyRegistry f).1,
           (IndexJs.manageForm IndexJs.emptyRegistry f).2) ∧
    (IndexJs.manageForm IndexJs.emptyRegistry f).2.wraps = [(0, f.eid)] ∧
    (g.name = f.name →
      FormMan.initForm (FormMan.initForm FormMan.emptyForms f) g
        = FormMan.initForm FormMan.emptyForms f) := by
  have h1 : IndexJs.manageForm IndexJs.emptyRegistry f
      = (0, ⟨[(f.name, 0)], [(f.id, 0)], 1, [(0, f.eid)], [(f.eid, 0)]⟩) := by
    simp [IndexJs.manageForm, IndexJs.emptyRegistry, lookupStr, addListener]
  rw [h1]
  refine ⟨?_, rfl, ?_⟩
  · by_cases hn : g.name = f.name
    · simp [IndexJs.manageForm, lookupStr, hn]
    · have hid : g.id = f.id := h.resolve_left hn
      have hnb : (f.name == g.name) = false := by
        simp
        intro hc
        exact hn hc.symm
      simp [IndexJs.manageForm, lookupStr, hnb, hid]
  · intro hn
    have h2 : FormMan.initForm FormMan.emptyForms f
        = ⟨[(f.name, 0)], [(0, f.eid)], 1⟩ := by
      simp [FormMan.initForm, FormMan.emptyForms, lookupStr]
    rw [h2]
    simp [FormMan.initForm, lookupStr, hn]

/-- C10 witness: two distinct elements (eids 0 and 1) that both have empty
name and id share the one instance, which wraps the first element. -/
theorem c10_witness :
    IndexJs.manageForm (IndexJs.manageForm IndexJs.emptyRegistry ⟨0, "", ""⟩).2 ⟨1, "", ""⟩
        = ((IndexJs.manageForm IndexJs.emptyRegistry ⟨0, "", ""⟩).1,
           (IndexJs.manageForm IndexJs.emptyRegistry ⟨0, "", ""⟩).2) ∧
    (IndexJs.manageForm IndexJs.emptyRegistry ⟨0, "", ""⟩).2.wraps = [(0, 0)] :=
  ⟨(c10_registry_keyed_by_strings ⟨0, "", ""⟩ ⟨1, "", ""⟩ (Or.inl rfl)).1,
   (c10_registry_keyed_by_strings ⟨0, "", ""⟩ ⟨1, "", ""⟩ (Or.inl rfl)).2.1⟩

end Forms
